import Mathlib

/-!
Verification of the KaiShing report pipeline (kaishing_report_app.py /
send_report_enhanced.py) against its natural-language specification.

The tabular code is shallowly embedded: a dataframe column value is a
`Value` (raw number, raw string, normalized datetime, or missing), a
dataframe is its `createdAt` column plus the column-presence/dtype flags
the code branches on, and each pandas operation is translated to the
corresponding pure function on lists.  Mutating code (in-place column
assignment) is embedded in state-passing style: a filter returns the pair
(result table, caller's table after the call).
-/

namespace Kaishing

/-- One cell of a raw `createdAt` column: a number (epoch seconds, e.g. a
DynamoDB `Decimal`), a string, an already-normalized UTC instant
(`datetime64`, seconds since epoch), or a missing value (NaN/NaT). -/
inductive Value : Type where
  | num (n : Int)
  | str (s : String)
  | dt (t : Int)
  | missing
  deriving DecidableEq, Repr

/-- Digits of a decimal numeral to a natural number. -/
def digitsToNat (cs : List Char) : Nat :=
  cs.foldl (fun acc c => acc * 10 + (c.toNat - '0'.toNat)) 0

/-- Numeric-literal parsing of a string, as `pd.to_numeric` does on a string
cell (integer numerals; anything else is unparseable). -/
def parseIntStr (s : String) : Option Int :=
  match s.toList with
  | [] => none
  | '-' :: rest =>
      if rest ≠ [] ∧ rest.all Char.isDigit then some (-(digitsToNat rest : Int)) else none
  | cs =>
      if cs.all Char.isDigit then some ((digitsToNat cs : Int)) else none

/-- `pd.to_numeric(v, errors='coerce')` on one cell: numbers pass through,
numeric strings are parsed, everything else coerces to NaN (`none`).
Raw input columns scanned from the table store contain only numbers,
strings and missing values, never datetimes. -/
def to_numeric (v : Value) : Option Int :=
  match v with
  | .num n => some n
  | .str s => parseIntStr s
  | .dt _ => none
  | .missing => none

/-- `datetime64[ns]` representable range in whole seconds: `unit='s'`
conversion multiplies by 10^9 and must fit a signed 64-bit count. -/
def dt64SecBound : Nat := 9223372036

/-- `kaishing_report_app.filter_df_by_range` lines 44-45: normalization of
one `createdAt` cell — `pd.to_numeric(.., errors='coerce')` followed by
`pd.to_datetime(.., unit='s', errors='coerce').tz_localize('UTC')`.
Values are interpreted as seconds since epoch; out-of-range seconds
overflow `datetime64[ns]` and coerce to NaT. -/
def normalize_app (v : Value) : Option Int :=
  match to_numeric v with
  | some n => if n.natAbs ≤ dt64SecBound then some n else none
  | none => none

/-- Modelled from the spec: the "generic date/time parser" used by
`pd.to_datetime` on string cells (library behaviour, not repository code),
modelled for ISO `YYYY-MM-DD` calendar dates, which it maps to midnight
UTC of that day. -/
def daysFromCivil (y m d : Nat) : Int :=
  let yAdj := if m ≤ 2 then y - 1 else y
  let era := yAdj / 400
  let yoe := yAdj % 400
  let doy := (153 * (if m > 2 then m - 3 else m + 9) + 2) / 5 + (d - 1)
  let doe := yoe * 365 + yoe / 4 - yoe / 100 + doy
  ((era * 146097 + doe : Nat) : Int) - 719468

/-- Split a character list on the `-` separator. -/
def splitOnDash : List Char → List (List Char)
  | [] => [[]]
  | x :: rest =>
      match splitOnDash rest with
      | [] => [[]]
      | g :: gs => if x = '-' then [] :: g :: gs else (x :: g) :: gs

/-- A non-empty all-digit group and its numeric value. -/
def digitGroup? (cs : List Char) : Option Nat :=
  if cs ≠ [] ∧ cs.all Char.isDigit then some (digitsToNat cs) else none

/-- Modelled from the spec: generic date parsing of an ISO `YYYY-MM-DD`
string to a UTC instant (seconds since epoch at midnight UTC). -/
def genericDateParse (s : String) : Option Int :=
  match splitOnDash s.toList with
  | [y, m, d] =>
      match digitGroup? y, digitGroup? m, digitGroup? d with
      | some yn, some mn, some dn =>
          if 1 ≤ yn ∧ 1 ≤ mn ∧ mn ≤ 12 ∧ 1 ≤ dn ∧ dn ≤ 31 then
            some (86400 * daysFromCivil yn mn dn)
          else none
      | _, _, _ => none
  | _ => none

/-- `send_report_enhanced.filter_data_by_time_period` lines 71-74:
normalization of one `createdAt` cell, branching on the column dtype:
a numeric column is converted with `pd.to_datetime(.., unit='s')`
(seconds since epoch); otherwise `pd.to_datetime(df[col], errors='coerce')`
is used, which parses strings with the generic date parser, interprets
bare numbers as nanoseconds since epoch, and keeps datetimes. -/
def normalize_enh (numericCol : Bool) (v : Value) : Option Int :=
  if numericCol then
    match v with
    | .num n => if n.natAbs ≤ dt64SecBound then some n else none
    | _ => none
  else
    match v with
    | .str s => genericDateParse s
    | .num n => some (n / 1000000000)
    | .dt t => some t
    | .missing => none

/-- A dataframe, reduced to what the two range filters consult: whether a
`createdAt` column exists, its dtype class (`int64`/`float64` or not), and
the column's cells.  A row is represented by its `createdAt` cell — the
filters consult no other field. -/
structure DF : Type where
  hasCreatedAt : Bool
  numericCreatedAt : Bool
  rows : List Value
  deriving DecidableEq, Repr

/-- Normalized cell back into a column cell: instant or NaT. -/
def normCell (o : Option Int) : Value :=
  match o with
  | some t => Value.dt t
  | none => Value.missing

/-- The boolean mask `(df[col] >= start) & (df[col] <= end)` on one cell:
comparisons against NaT (and any non-datetime cell) are `False`. -/
def inRange (s e : Int) (v : Value) : Bool :=
  match v with
  | .dt t => decide (s ≤ t ∧ t ≤ e)
  | _ => false

/-- `kaishing_report_app.filter_df_by_range` (lines 41-49), embedded in
state-passing style.  Returns `(result, caller's table after the call)`:
the function copies the dataframe (`df = df.copy()`) before writing the
normalized column, so the caller's table is returned unchanged. -/
def filter_df_by_range (df : DF) (s e : Int) : DF × DF :=
  if df.rows.isEmpty || !df.hasCreatedAt then (df, df)
  else
    let copy : DF := { df with rows := df.rows.map (fun v => normCell (normalize_app v)) }
    ({ copy with rows := copy.rows.filter (inRange s e) }, df)

/-- `send_report_enhanced.filter_data_by_time_period` (lines 65-78),
embedded in state-passing style.  Returns `(result, caller's table after
the call)`: the function assigns `df[date_column] = pd.to_datetime(...)`
on the dataframe it was passed, with no copy, so the caller's table comes
back with its `createdAt` column overwritten by the normalized values. -/
def filter_data_by_time_period (df : DF) (s e : Int) : DF × DF :=
  if df.rows.isEmpty || !df.hasCreatedAt then (df, df)
  else
    let mutated : DF :=
      { df with rows := df.rows.map (fun v => normCell (normalize_enh df.numericCreatedAt v)) }
    ({ mutated with rows := mutated.rows.filter (inRange s e) }, mutated)

/-! ### Event classifier (`build_summary_df`, kaishing_report_app.py lines 313-362)

The five `usage_type` pattern rules are pandas
`.str.contains(pattern, case=False, na=False)` regex searches.  The regex
shapes used are a literal token, `A.*B`, and an alternation of two `A.*B`
forms; `.` does not match a newline.  They are embedded as executable
matchers over lowercased character lists. -/

/-- Does the pattern literally begin the string (literal-token match at the
current position)? -/
def leadsWith : List Char → List Char → Bool
  | [], _ => true
  | _ :: _, [] => false
  | a :: as, b :: bs => a == b && leadsWith as bs

/-- Does the pattern occur literally anywhere in the string
(`re.search` of a literal token)? -/
def hasSub (pat : List Char) : List Char → Bool
  | [] => pat.isEmpty
  | c :: rest => leadsWith pat (c :: rest) || hasSub pat rest

/-- Match `.*b` at the current position: any run of non-newline characters,
then the literal token `b`. -/
def dotStarThen (b : List Char) : List Char → Bool
  | [] => b.isEmpty
  | c :: rest => leadsWith b (c :: rest) || (!(c == '\n') && dotStarThen b rest)

/-- `re.search` of the regex `a.*b`: the literal token `a` somewhere in the
string, followed (not necessarily adjacently) by the literal token `b`,
with no newline in between. -/
def searchSeq (a b : List Char) : List Char → Bool
  | [] => a.isEmpty && b.isEmpty
  | c :: rest =>
      (leadsWith a (c :: rest) && dotStarThen b ((c :: rest).drop a.length))
        || searchSeq a b rest

/-- Lowercased character list of a label (`case=False`; labels are ASCII). -/
def lowerList (s : String) : List Char := s.toList.map Char.toLower

/-- `label.str.contains(pat, case=False)` for a literal-token pattern. -/
def containsPat (pat : String) (s : String) : Bool := hasSub pat.toList (lowerList s)

/-- `label.str.contains("a.*b", case=False)`. -/
def seqPat (a b : String) (s : String) : Bool := searchSeq a.toList b.toList (lowerList s)

/-- Rule for `regenerated transcripts` (line 314):
`usage_type.str.contains('regenerate.*transcript', case=False, na=False)`. -/
def regen_trans_match (s : String) : Bool := seqPat "regenerate" "transcript" s

/-- Rule for `initial summaries` (lines 324-325):
`contains('initial.*summary|generate.*summary') & ~contains('regenerate')`. -/
def init_sum_match (s : String) : Bool :=
  (seqPat "initial" "summary" s || seqPat "generate" "summary" s)
    && !(containsPat "regenerate" s)

/-- Rule for `regenerated summaries` (line 335):
`usage_type.str.contains('regenerate.*summary', case=False, na=False)`. -/
def regen_sum_match (s : String) : Bool := seqPat "regenerate" "summary" s

/-- Rule for `generated notes` (lines 345-346):
`contains('generate.*note|initial.*note') & ~contains('regenerate')`. -/
def gen_notes_match (s : String) : Bool :=
  (seqPat "generate" "note" s || seqPat "initial" "note" s)
    && !(containsPat "regenerate" s)

/-- Rule for `regenerated notes` (line 356):
`usage_type.str.contains('regenerate.*note', case=False, na=False)`. -/
def regen_notes_match (s : String) : Bool := seqPat "regenerate" "note" s

/-- The five label-driven category signals of one `usage_type` label, in
source order: regenerated transcripts, initial summaries, regenerated
summaries, generated notes, regenerated notes.  (The sixth category,
generated transcripts, is not label-driven at all: it is counted from the
transcription table.) -/
def usage_label_categories (l : String) : List Bool :=
  [regen_trans_match l, init_sum_match l, regen_sum_match l,
   gen_notes_match l, regen_notes_match l]

/-! ### Summary matrix builder (`build_summary_df`, kaishing_report_app.py lines 279-382)

Tables are embedded by the columns the builder consults: the account table
by `account` and optional `username`; the usage table by `account` and
`usage_type`; the transcription and AskAI tables by `account` alone
(`counter_from_transcription` / `counter_from_askai` use only
`groupby('account').size()`).  The chain of per-category `groupby` +
left `merge` + `fillna(0).astype(int)` yields, per roster account, the
plain count of its matching rows (0 when none), which is how the builder
is embedded. -/

/-- One row of the account table: `account` and its optional `username`. -/
structure AccRow : Type where
  account : String
  username : Option String
  deriving DecidableEq, Repr

/-- One usage event as the classifier sees it: `account` and the free-text
`usage_type` label (possibly missing). -/
structure UEvent : Type where
  account : String
  usage_type : Option String
  deriving DecidableEq, Repr

/-- One row of the per-account summary matrix. -/
structure SummaryRow : Type where
  account : String
  username : Option String
  generated_transcripts : Nat
  regenerated_transcripts : Nat
  initial_summaries : Nat
  regenerated_summaries : Nat
  generated_notes : Nat
  regenerated_notes : Nat
  askai_questions : Nat
  deriving DecidableEq, Repr

/-- Helper for `dropDups`: drop the values already seen. -/
def dropDupsAux (seen : List String) : List String → List String
  | [] => []
  | a :: rest =>
      if seen.contains a then dropDupsAux seen rest
      else a :: dropDupsAux (a :: seen) rest

/-- `DataFrame.drop_duplicates()` on a single column: keep the first
occurrence of each value, in order. -/
def dropDups (l : List String) : List String := dropDupsAux [] l

/-- `na=False`: a missing `usage_type` matches no pattern. -/
def optMatch (m : String → Bool) : Option String → Bool
  | some l => m l
  | none => false

/-- Per-account count of usage events whose `usage_type` satisfies a
pattern rule (`filter` + `groupby('account').size()`, with absent
accounts filled to 0 by the left merge). -/
def usageCountBy (m : String → Bool) (u : List UEvent) (a : String) : Nat :=
  (u.filter (fun e => e.account == a && optMatch m e.usage_type)).length

/-- Per-account row count of a table embedded by its `account` column
(`counter_from_transcription` / `counter_from_askai`). -/
def rowCount (tbl : List String) (a : String) : Nat :=
  (tbl.filter (fun x => x == a)).length

/-- The merged count columns for one roster account. -/
def countsRow (a : String) (u : List UEvent) (t k : List String) : SummaryRow :=
  { account := a
    username := none
    generated_transcripts := rowCount t a
    regenerated_transcripts := usageCountBy regen_trans_match u a
    initial_summaries := usageCountBy init_sum_match u a
    regenerated_summaries := usageCountBy regen_sum_match u a
    generated_notes := usageCountBy gen_notes_match u a
    regenerated_notes := usageCountBy regen_notes_match u a
    askai_questions := rowCount k a }

/-- The final `out.merge(acc_df[['account','username']], on='account',
how='left')` (lines 378-381): a left join that emits one output row per
matching account-table row (or one row with a missing username when there
is no match). -/
def leftJoinUser (acc : List AccRow) (r : SummaryRow) : List SummaryRow :=
  match acc.filter (fun m => m.account == r.account) with
  | [] => [r]
  | ms => ms.map (fun m => { r with username := m.username })

/-- `build_summary_df(acc_df, usage_df, transcription_df, ask_df)`:
empty roster gives an empty frame; otherwise one counts row per
deduplicated roster account, then — when the account table has a
`username` column (`hasUser`) — the username left join. -/
def build_summary_df (hasUser : Bool) (acc : List AccRow) (u : List UEvent)
    (t k : List String) : List SummaryRow :=
  if acc.isEmpty then []
  else
    let base := (dropDups (acc.map AccRow.account)).map (fun a => countsRow a u t k)
    if hasUser then base.flatMap (leftJoinUser acc) else base

/-! ### Time bucketer (`build_figures_and_render` lines 68-94;
`send_report_enhanced.main` lines 783-794)

Timestamps are UTC instants in seconds since the epoch (`Nat`).
`tz_convert('Asia/Hong_Kong')` is the fixed offset UTC+8 (Hong Kong has no
DST in the covered era).  `pd.Grouper(key='createdAt_HKT', freq='W-Mon')`
is a weekly grouper anchored on Monday: for `W` frequencies pandas bins
right-closed with the right edge as label and stretches each bin edge to
the end of its day, so each bucket covers Tuesday 00:00:00 through the
following Monday 23:59:59 local time and is labelled by that ending
Monday. -/

/-- Local (Hong Kong, UTC+8) day number of a UTC instant: days since the
epoch of its local calendar date. -/
def localDay (t : Nat) : Nat := (t + 28800) / 86400

/-- Weekday index of a local day number: 0 = Monday … 6 = Sunday
(epoch day 0 was a Thursday). -/
def weekdayIdx (d : Nat) : Nat := (d + 3) % 7

/-- The `W-Mon` bucket label of an event: the day number of the first
Monday on or after the event's local day (the Monday ending the
Tuesday-to-Monday bucket). -/
def wauWeekLabel (t : Nat) : Nat :=
  localDay t + (7 - weekdayIdx (localDay t)) % 7

/-- `groupby(Grouper(freq='W-Mon'))['account'].nunique()` for one bucket:
the number of distinct accounts among the events whose label is that
bucket's Monday. -/
def wauCount (evs : List (String × Nat)) (lab : Nat) : Nat :=
  (((evs.filter (fun ev => wauWeekLabel ev.2 == lab)).map Prod.fst).toFinset).card

/-- Local hour of day (0-23) of a UTC instant (`createdAt_HKT.dt.hour`). -/
def hourOf (t : Nat) : Nat := (t + 28800) % 86400 / 3600

/-- Local weekday index of a UTC instant, 0 = Monday
(`createdAt_HKT.dt.day_name()` indexed in `day_order`). -/
def weekdayOf (t : Nat) : Nat := weekdayIdx (localDay t)

/-- The seven day names, Monday first (`day_order`, line 92). -/
def day_order : List String :=
  ["Monday", "Tuesday", "Wednesday", "Thursday", "Friday", "Saturday", "Sunday"]

/-- The row labels of the heatmap pivot: `pivot_table(index='hour_of_day')`
keeps exactly the distinct hour values present in the data, in ascending
order (every hour value is < 24, so this is the ascending filter of
0..23 by presence). -/
def heatHours (evs : List Nat) : List Nat :=
  (List.range 24).filter (fun h => (evs.map hourOf).contains h)

/-- One heatmap cell: the number of events at local hour `h` and local
weekday `d` (`aggfunc='count'` over the always-present `id` column;
combinations with no events are filled with 0 by `fillna(0)` /
`reindex(columns=day_order, fill_value=0)`). -/
def heatCell (evs : List Nat) (h d : Nat) : Nat :=
  (evs.filter (fun t => hourOf t == h && weekdayOf t == d)).length

/-- The heatmap matrix after `fillna(0)` and the column reindex: one row
per hour present in the data, one column per day name in `day_order`
(column `d` holds the counts for weekday index `d`). -/
def heatMatrix (evs : List Nat) : List (List Nat) :=
  (heatHours evs).map (fun h => (List.range 7).map (fun d => heatCell evs h d))

/-- `zmax = activity_heatmap_data.values.max() if ... .size > 0 else 0`
(line 94): the maximum cell value, or 0 for an empty matrix. -/
def heatZmax (evs : List Nat) : Nat :=
  ((heatMatrix evs).flatten).foldr max 0

/-! ### Site resolver (`main`, kaishing_report_app.py lines 230-263)

The static `site_code_map` dict literal, in source order (its keys are
pairwise distinct, so dict lookup and first-match association-list lookup
agree), and the per-account resolution
`account.map(site_code_map).fillna('Unknown')`. -/

/-- The static account → site-code table (lines 230-254). -/
def site_code_map : List (String × String) :=
  [("eddiecheuk@kaishing.com.hk", "HQ-IT"), ("ksitsupport@kaishing.com.hk", "HQ-IT"),
   ("aegeancoast@kaishing.com.hk", "AC"), ("dacychung@kaishing.com.hk", "ICC"),
   ("lewislam@kaishing.com.hk", "ICC"), ("Vcity@kaishing.com.hk", "VCY"),
   ("yohomidtown@kaishing.com.hk", "YMT"), ("leightonhill@supreme-mgt.com.hk", "LH"),
   ("riva@supreme-mgt.com.hk", "RV"), ("tpmm@kaishing.com.hk", "TPMM"),
   ("palmsprings@kaishing.com.hk", "PS"), ("castello@kaishing.com.hk", "CAS"),
   ("newtown3@kaishing.com.hk", "NTP3R"), ("millencity@kaishing.com.hk", "M388"),
   ("mounthaven@kaishing.com.hk", "MH"), ("victorwong@supreme-mgt.com.hk", "UMA"),
   ("epc@kaishing.com.hk", "EPC-C"), ("millencity5@kaishing.com.hk", "MMC418"),
   ("apm@kaishing.com.hk", "MMC418"), ("taipocentre@kaishing.com.hk", "TPC"),
   ("parkisland@kaishing.com.hk", "PI"), ("thewings3a@kaishing.com.hk", "TW3A"),
   ("pacificview@kaishing.com.hk", "PV"), ("cffy@chifufayuen.hk", "CFFY"),
   ("98hms@kaishing.com.hk", "98HMS"), ("stanford@kaishing.com.hk", "SFV"),
   ("lepalais@kaishing.com.hk", "LPS"), ("avignon@kaishing.com.hk", "AGN"),
   ("pmt@kaishing.com.hk", "PMT"), ("mountregency@kaishing.com.hk", "MR"),
   ("somerset@kaishing.com.hk", "SOM"), ("emilyho@kaishing.com.hk", "NTPI"),
   ("garychan@kaishing.com.hk", "CAC"), ("dynastycourt@kaishing.com.hk", "DC"),
   ("eastpoint@kaishing.com.hk", "EPCR"), ("grandyoho@kaishing.com.hk", "GYR"),
   ("hillsborough@kaishing.com.hk", "HC"), ("kodakhouse11@kaishing.com.hk", "KHII"),
   ("oceanwings@kaishing.com.hk", "OW"), ("pokfulam@kaishing.com.hk", "PG"),
   ("royalpalms@kaishing.com.hk", "RP"), ("concerto@kaishing.com.hk", "VC"),
   ("brownieyu@kaishing.com.hk", "AFFC"), ("hlypm@kaishing.com.hk", "HLY"),
   ("thewings2@kaishing.com.hk", "TW2"), ("mayfair@kaishing.com.hk", "MG"),
   ("affc@kaishing.com.hk", "AFFC"), ("villabythepark@kaishing.com.hk", "VP"),
   ("celestecourt@kaishing.com.hk", "CC"), ("ls@kaishing.com.hk", "LS"),
   ("suntuenmun@kaishing.com.hk", "STMC"), ("lagrove@kaishing.com.hk", "LG"),
   ("yohowest@wespire.com.hk", "YOW"), ("yohohouse@wespire.com.hk", "YOW"),
   ("kennedy38@supreme-mgt.com.hk", "K38"), ("homantinhill@supreme-mgt.com.hk", "HMT"),
   ("landmarkn@kaishing.com.hk", "LN"), ("metroplaza@kaishing.com.hk", "MP"),
   ("yohomall-1@kaishing.com.hk", "YM1"), ("ylplaza@kaishing.com.hk", "YLP"),
   ("kingspark@kaishing.com.hk", "KPV"), ("candicewong@kaishing.com.hk", "KCC"),
   ("rhapsody@kaishing.com.hk", "VR"), ("lgar@kaishing.com.hk", "LGAR"),
   ("rseacrest@kaishing.com.hk", "RSC"), ("yukpocourt@kaishing.com.hk", "YPC"),
   ("villaathena@kaishing.com.hk", "VA"), ("vincenttse@supreme-mgt.com.hk", "VY")]

/-- First-match association lookup (agrees with Python dict lookup since
the keys of `site_code_map` are pairwise distinct). -/
def lookupSite (a : String) : List (String × String) → Option String
  | [] => none
  | p :: rest => if p.1 == a then some p.2 else lookupSite a rest

/-- `account.map(site_code_map).fillna('Unknown')` on one account: exact,
case-sensitive lookup with the `"Unknown"` sentinel for a miss. -/
def siteResolve (a : String) : String :=
  match lookupSite a site_code_map with
  | some c => c
  | none => "Unknown"

/-! ### Helper lemmas -/

theorem searchSeq_imp_hasSub (a b : List Char) :
    ∀ s : List Char, searchSeq a b s = true → hasSub a s = true := by
  intro s
  induction s with
  | nil =>
      intro h
      simp only [searchSeq, Bool.and_eq_true] at h
      simp only [hasSub]
      exact h.1
  | cons c rest ih =>
      intro h
      simp only [searchSeq, Bool.or_eq_true, Bool.and_eq_true] at h
      simp only [hasSub, Bool.or_eq_true]
      rcases h with h1 | h2
      · exact Or.inl h1.1
      · exact Or.inr (ih h2)

/-- A successful `a.*b` regex search implies the plain token `a` occurs. -/
theorem seqPat_imp_containsPat (a b s : String) :
    seqPat a b s = true → containsPat a s = true :=
  searchSeq_imp_hasSub a.toList b.toList (lowerList s)

theorem mem_dropDupsAux (a : String) :
    ∀ (l seen : List String), a ∈ dropDupsAux seen l ↔ a ∈ l ∧ a ∉ seen := by
  intro l
  induction l with
  | nil => intro seen; simp [dropDupsAux]
  | cons b rest ih =>
      intro seen
      simp only [dropDupsAux]
      by_cases hb : seen.contains b
      · rw [if_pos hb, ih]
        have hbm : b ∈ seen := List.elem_iff.mp hb
        simp only [List.mem_cons]
        constructor
        · rintro ⟨h1, h2⟩; exact ⟨Or.inr h1, h2⟩
        · rintro ⟨h1 | h1, h2⟩
          · exact absurd (h1 ▸ hbm) h2
          · exact ⟨h1, h2⟩
      · rw [if_neg hb]
        have hbm : b ∉ seen := fun hmem => hb (List.elem_iff.mpr hmem)
        simp only [List.mem_cons, ih]
        constructor
        · rintro (h1 | ⟨h1, h2⟩)
          · exact ⟨Or.inl h1, h1 ▸ hbm⟩
          · exact ⟨Or.inr h1, fun hs => h2 (Or.inr hs)⟩
        · rintro ⟨h1 | h1, h2⟩
          · exact Or.inl h1
          · by_cases hab : a = b
            · exact Or.inl hab
            · exact Or.inr ⟨h1, fun hs => by
                rcases hs with h | h
                · exact hab h
                · exact h2 h⟩

theorem mem_dropDups (a : String) (l : List String) : a ∈ dropDups l ↔ a ∈ l := by
  rw [dropDups, mem_dropDupsAux]
  simp

theorem nodup_dropDupsAux :
    ∀ (l seen : List String), (dropDupsAux seen l).Nodup := by
  intro l
  induction l with
  | nil => intro seen; simp [dropDupsAux]
  | cons b rest ih =>
      intro seen
      simp only [dropDupsAux]
      by_cases hb : seen.contains b
      · rw [if_pos hb]; exact ih seen
      · rw [if_neg hb]
        refine List.nodup_cons.mpr ⟨?_, ih (b :: seen)⟩
        intro hmem
        exact ((mem_dropDupsAux b rest (b :: seen)).mp hmem).2 (List.mem_cons_self b seen)

theorem nodup_dropDups (l : List String) : (dropDups l).Nodup := nodup_dropDupsAux l []

theorem dropDupsAux_eq_self :
    ∀ (l seen : List String), l.Nodup → (∀ a ∈ l, a ∉ seen) → dropDupsAux seen l = l := by
  intro l
  induction l with
  | nil => intro seen _ _; rfl
  | cons b rest ih =>
      intro seen hnd hdisj
      have hb : ¬seen.contains b = true := fun hc =>
        hdisj b (List.mem_cons_self b rest) (List.elem_iff.mp hc)
      simp only [dropDupsAux, if_neg hb]
      congr 1
      refine ih (b :: seen) (List.nodup_cons.mp hnd).2 ?_
      intro a ha hmem
      rcases List.mem_cons.mp hmem with h | h
      · exact (List.nodup_cons.mp hnd).1 (h ▸ ha)
      · exact hdisj a (List.mem_cons_of_mem b ha) h

theorem dropDups_eq_self (l : List String) (h : l.Nodup) : dropDups l = l :=
  dropDupsAux_eq_self l [] h (by simp)

theorem length_filter_eq_zero {α : Type} (p : α → Bool) (l : List α)
    (h : ∀ x ∈ l, p x = false) : (l.filter p).length = 0 := by
  rw [List.filter_eq_nil_iff.mpr (fun a ha => by simp [h a ha])]
  rfl

theorem le_foldrMax (l : List Nat) (x : Nat) (hx : x ∈ l) : x ≤ l.foldr max 0 := by
  induction l with
  | nil => cases hx
  | cons a rest ih =>
      rcases List.mem_cons.mp hx with h | h
      · exact h ▸ le_max_left a (rest.foldr max 0)
      · exact le_trans (ih h) (le_max_right a (rest.foldr max 0))

theorem foldrMax_mem (l : List Nat) (h : l ≠ []) : l.foldr max 0 ∈ l := by
  induction l with
  | nil => exact absurd rfl h
  | cons a rest ih =>
      by_cases hr : rest = []
      · subst hr; simp
      · rcases le_total a (rest.foldr max 0) with hle | hle
        · rw [List.foldr_cons, max_eq_right hle]
          exact List.mem_cons_of_mem a (ih hr)
        · rw [List.foldr_cons, max_eq_left hle]
          exact List.mem_cons_self a rest

theorem hourOf_lt_24 (t : Nat) : hourOf t < 24 := by
  unfold hourOf
  omega

theorem lookupSite_eq_none (a : String) :
    ∀ l : List (String × String), (∀ p ∈ l, p.1 ≠ a) → lookupSite a l = none := by
  intro l
  induction l with
  | nil => intro _; rfl
  | cons p rest ih =>
      intro h
      have hp : ¬(p.1 == a) = true := by
        simpa using h p (List.mem_cons_self p rest)
      simp only [lookupSite, if_neg hp]
      exact ih (fun q hq => h q (List.mem_cons_of_mem p hq))

/-- Every row the summary builder emits carries the merged per-account
counts of some deduplicated roster account (the username left join can
only change the `username` field). -/
theorem mem_build (hu : Bool) (acc : List AccRow) (u : List UEvent)
    (t k : List String) (r : SummaryRow)
    (hr : r ∈ build_summary_df hu acc u t k) :
    r.account ∈ dropDups (acc.map AccRow.account) ∧
    r.generated_transcripts = rowCount t r.account ∧
    r.regenerated_transcripts = usageCountBy regen_trans_match u r.account ∧
    r.initial_summaries = usageCountBy init_sum_match u r.account ∧
    r.regenerated_summaries = usageCountBy regen_sum_match u r.account ∧
    r.generated_notes = usageCountBy gen_notes_match u r.account ∧
    r.regenerated_notes = usageCountBy regen_notes_match u r.account ∧
    r.askai_questions = rowCount k r.account := by
  unfold build_summary_df at hr
  by_cases hacc : acc.isEmpty
  · rw [if_pos hacc] at hr; cases hr
  · rw [if_neg hacc] at hr
    have hbase : ∀ b : SummaryRow,
        b ∈ (dropDups (acc.map AccRow.account)).map (fun a => countsRow a u t k) →
        b.account ∈ dropDups (acc.map AccRow.account) ∧
        b.generated_transcripts = rowCount t b.account ∧
        b.regenerated_transcripts = usageCountBy regen_trans_match u b.account ∧
        b.initial_summaries = usageCountBy init_sum_match u b.account ∧
        b.regenerated_summaries = usageCountBy regen_sum_match u b.account ∧
        b.generated_notes = usageCountBy gen_notes_match u b.account ∧
        b.regenerated_notes = usageCountBy regen_notes_match u b.account ∧
        b.askai_questions = rowCount k b.account := by
      intro b hb
      rcases List.mem_map.mp hb with ⟨a, ha, rfl⟩
      exact ⟨ha, rfl, rfl, rfl, rfl, rfl, rfl, rfl⟩
    cases hu with
    | false => exact hbase r hr
    | true =>
        simp only [Bool.cond_eq_ite, if_true] at hr
        rcases List.mem_flatMap.mp hr with ⟨b, hb, hrj⟩
        have hbprops := hbase b hb
        unfold leftJoinUser at hrj
        rcases hfil : acc.filter (fun m => m.account == b.account) with _ | ⟨m, ms⟩
        · rw [hfil] at hrj
          rcases List.mem_singleton.mp hrj with rfl
          exact hbprops
        · rw [hfil] at hrj
          rcases List.mem_map.mp hrj with ⟨m2, _, rfl⟩
          exact hbprops

/-! ### Claims -/

/-- C1 (counterexample): the six classification rules are *not* mutually
exclusive.  The label `"regenerate summary note"` satisfies both the
regenerated-summaries rule (`regenerate.*summary`) and the
regenerated-notes rule (`regenerate.*note`), so it is counted in two
categories, where the claim allows at most one. -/
theorem C1_counterexample :
    regen_sum_match "regenerate summary note" = true ∧
    regen_notes_match "regenerate summary note" = true ∧
    (usage_label_categories "regenerate summary note").count true = 2 := by
  decide

/-- C1 (amended): mutual exclusion holds between the regenerate-guarded
categories and the regenerate-driven ones — a label counted in
`initial_summaries` or `generated_notes` (both carry the
`~contains('regenerate')` guard) is never counted in
`regenerated_transcripts`, `regenerated_summaries` or `regenerated_notes`
(all of which require the `regenerate` token).  Cross-content-type
overlaps (as in the counterexample, or `initial_summaries` together with
`generated_notes`) remain possible, and `generated_transcripts` is not
label-driven at all. -/
theorem C1_amended (l : String)
    (h : init_sum_match l = true ∨ gen_notes_match l = true) :
    regen_trans_match l = false ∧ regen_sum_match l = false ∧
    regen_notes_match l = false := by
  have hguard : containsPat "regenerate" l = false := by
    rcases h with h | h <;>
      · simp only [init_sum_match, gen_notes_match, Bool.and_eq_true,
          Bool.not_eq_true'] at h
        exact h.2
  refine ⟨?_, ?_, ?_⟩
  · cases hb : regen_trans_match l
    · rfl
    · have := seqPat_imp_containsPat "regenerate" "transcript" l hb
      rw [hguard] at this
      cases this
  · cases hb : regen_sum_match l
    · rfl
    · have := seqPat_imp_containsPat "regenerate" "summary" l hb
      rw [hguard] at this
      cases this
  · cases hb : regen_notes_match l
    · rfl
    · have := seqPat_imp_containsPat "regenerate" "note" l hb
      rw [hguard] at this
      cases this

/-- C1 witness. -/
theorem C1_witness :
    regen_sum_match "generate summary" = false :=
  (C1_amended "generate summary" (Or.inl (by decide))).2.1

/-- C2 (counterexample): weekly buckets are *not* Monday-to-Sunday.
1704038400 is Monday 2024-01-01 00:00:00 HKT; 1704643199 is the same
week's Sunday 23:59:59 HKT, yet the two get different `W-Mon` bucket
labels (day 19723 vs day 19730).  1704643200 is the next Monday
00:00:00 HKT, and instead of starting a new bucket it shares its label
with the preceding Tuesday 00:00:00 HKT (1704124800): the buckets run
Tuesday through Monday, labelled by the ending Monday. -/
theorem C2_counterexample :
    wauWeekLabel 1704038400 = 19723 ∧
    wauWeekLabel 1704643199 = 19730 ∧
    wauWeekLabel 1704038400 ≠ wauWeekLabel 1704643199 ∧
    wauWeekLabel 1704643200 = wauWeekLabel 1704124800 := by
  decide

/-- C2 (amended): weekly WAU bucketing converts each timestamp to Hong
Kong local time and groups all events from a Tuesday 00:00:00 local
through the following Monday 23:59:59 local into one bucket labelled by
that ending Monday; an event on the next Tuesday's local day falls in the
next bucket (labelled thirteen days after the first Tuesday).  Within a
bucket, accounts are counted distinctly: duplicating every event leaves
the per-bucket WAU count unchanged. -/
theorem C2_amended :
    (∀ d : Nat, weekdayIdx d = 1 →
      (∀ s : Nat, d ≤ localDay s → localDay s ≤ d + 6 → wauWeekLabel s = d + 6) ∧
      (∀ s : Nat, localDay s = d + 7 → wauWeekLabel s = d + 13)) ∧
    (∀ (evs : List (String × Nat)) (lab : Nat),
      wauCount (evs ++ evs) lab = wauCount evs lab) := by
  constructor
  · intro d hd
    unfold weekdayIdx at hd
    constructor
    · intro s h1 h2
      unfold wauWeekLabel weekdayIdx
      generalize localDay s = x at h1 h2 ⊢
      omega
    · intro s h1
      unfold wauWeekLabel weekdayIdx
      rw [h1]
      omega
  · intro evs lab
    simp [wauCount, List.filter_append]

/-- C2 witness: 19724 is a Tuesday; 1704643200 (the following Monday
00:00:00 HKT, local day 19730 = 19724 + 6) is labelled by that Monday. -/
theorem C2_witness : wauWeekLabel 1704643200 = 19724 + 6 :=
  (C2_amended.1 19724 (by decide)).1 1704643200 (by decide) (by decide)

/-- C5 (counterexample): the normalization used by
`filter_df_by_range` (app path) does not parse date strings with a
generic date/time parser — `pd.to_numeric` coerces `"2024-01-01"` to
missing, although the generic parser maps it to the UTC instant
1704067200. -/
theorem C5_counterexample :
    normalize_app (Value.str "2024-01-01") = none ∧
    genericDateParse "2024-01-01" = some 1704067200 := by
  decide

/-- C5 (amended): numeric `createdAt` values are normalized to UTC
instants as seconds since epoch in both paths (within the `datetime64`
range); the app path additionally parses numeric strings as numbers and
maps every non-numeric string to missing; only the enhanced path
(string-typed column) hands strings to the generic date/time parser;
absent values are missing in both.  Normalization is a total function, so
no bad value can raise. -/
theorem C5_amended :
    (∀ n : Int, n.natAbs ≤ dt64SecBound →
      normalize_app (Value.num n) = some n ∧
      normalize_enh true (Value.num n) = some n) ∧
    (∀ (s : String) (n : Int), parseIntStr s = some n → n.natAbs ≤ dt64SecBound →
      normalize_app (Value.str s) = some n) ∧
    (∀ s : String, parseIntStr s = none → normalize_app (Value.str s) = none) ∧
    (∀ s : String, normalize_enh false (Value.str s) = genericDateParse s) ∧
    normalize_app Value.missing = none ∧
    (∀ b : Bool, normalize_enh b Value.missing = none) := by
  refine ⟨?_, ?_, ?_, fun s => rfl, rfl, ?_⟩
  · intro n hn
    constructor
    · simp [normalize_app, to_numeric, hn]
    · simp [normalize_enh, hn]
  · intro s n hs hn
    simp [normalize_app, to_numeric, hs, hn]
  · intro s hs
    simp [normalize_app, to_numeric, hs]
  · intro b
    cases b <;> rfl

/-- C5 witness. -/
theorem C5_witness : normalize_app (Value.num 0) = some 0 :=
  (C5_amended.1 0 (by decide)).1

/-- C6: site resolution is an exact, case-sensitive lookup in the static
`site_code_map` with the `"Unknown"` sentinel: the two scenario accounts
resolve as claimed, a case-twiddled key (`vcity` for `Vcity`) misses,
every table entry resolves to its own code, and every account matching no
entry resolves to `"Unknown"`. -/
theorem C6_site_resolution :
    siteResolve "eddiecheuk@kaishing.com.hk" = "HQ-IT" ∧
    siteResolve "unknown@nowhere.com" = "Unknown" ∧
    siteResolve "vcity@kaishing.com.hk" = "Unknown" ∧
    (∀ p ∈ site_code_map, siteResolve p.1 = p.2) ∧
    (∀ a : String, (∀ p ∈ site_code_map, p.1 ≠ a) → siteResolve a = "Unknown") := by
  refine ⟨by decide, by decide, by decide, by decide, ?_⟩
  intro a h
  unfold siteResolve
  rw [lookupSite_eq_none a site_code_map h]

/-- C6 witness. -/
theorem C6_witness : siteResolve "nobody@example.com" = "Unknown" :=
  C6_site_resolution.2.2.2.2 "nobody@example.com" (by decide)

/-- C8: the regenerated-transcripts rule is order-sensitive.
`"regenerate_transcript_action"` (token `regenerate` before `transcript`)
matches exactly the regenerated-transcripts rule, while
`"transcript_regenerate"` (token order reversed) matches none of the five
label-driven rules — and the sixth category, generated transcripts, is
counted from the transcription table, never from a usage label. -/
theorem C8_order_sensitivity :
    usage_label_categories "regenerate_transcript_action"
        = [true, false, false, false, false] ∧
    usage_label_categories "transcript_regenerate"
        = [false, false, false, false, false] := by
  decide

/-- C10 (counterexample): `filter_data_by_time_period` *does* mutate its
input — it writes the normalized timestamps into the caller's `createdAt`
column in place, so after the call the caller's table holds `dt 5` where
it held the raw number 5. -/
theorem C10_counterexample :
    (filter_data_by_time_period ⟨true, true, [Value.num 5]⟩ 0 10).2.rows
        = [Value.dt 5] ∧
    (filter_data_by_time_period ⟨true, true, [Value.num 5]⟩ 0 10).2
        ≠ ⟨true, true, [Value.num 5]⟩ := by
  decide

/-- C10 (amended): `filter_df_by_range` never mutates its input — it
normalizes into a copy, and for every input table the caller's table
(its `createdAt` column included) is unchanged after the call; the
mutation claim fails only for `filter_data_by_time_period`, which
overwrites the caller's `createdAt` column with the normalized values
(see the counterexample). -/
theorem C10_amended (df : DF) (s e : Int) :
    (filter_df_by_range df s e).2 = df := by
  cases hc : (df.rows.isEmpty || !df.hasCreatedAt) <;>
    simp [filter_df_by_range, hc]

/-- Both range filters share the same core after their guard: normalize
every cell, then keep the rows whose normalized instant passes the
inclusive mask.  For any normalizer, an instant `t` is in the
mapped-and-filtered column exactly when some input cell normalizes to it
and `start ≤ t ≤ end`, and every surviving cell is an in-range instant
(cells normalizing to missing are excluded). -/
theorem filtered_norm_mem (norm : Value → Option Int) (rows : List Value)
    (s e : Int) :
    (∀ t : Int,
      Value.dt t ∈ (rows.map (fun v => normCell (norm v))).filter (inRange s e) ↔
        ((∃ v ∈ rows, norm v = some t) ∧ s ≤ t ∧ t ≤ e)) ∧
    (∀ v ∈ (rows.map (fun v => normCell (norm v))).filter (inRange s e),
      ∃ t : Int, v = Value.dt t ∧ s ≤ t ∧ t ≤ e) := by
  constructor
  · intro t
    constructor
    · intro hmem
      rcases List.mem_filter.mp hmem with ⟨hin, hrange⟩
      rcases List.mem_map.mp hin with ⟨v, hv, hnv⟩
      have hnorm : norm v = some t := by
        rcases hnc : norm v with _ | u
        · rw [hnc] at hnv
          simp only [normCell] at hnv
          cases hnv
        · rw [hnc] at hnv
          simp only [normCell] at hnv
          cases hnv
          rfl
      refine ⟨⟨v, hv, hnorm⟩, ?_⟩
      simpa [inRange] using hrange
    · rintro ⟨⟨v, hv, hnorm⟩, hs, he2⟩
      refine List.mem_filter.mpr ⟨List.mem_map.mpr ⟨v, hv, ?_⟩, ?_⟩
      · rw [hnorm]
        rfl
      · simp [inRange, hs, he2]
  · intro v hv
    rcases List.mem_filter.mp hv with ⟨_, hrange⟩
    cases v with
    | dt t =>
        refine ⟨t, rfl, ?_⟩
        simpa [inRange] using hrange
    | num n => simp [inRange] at hrange
    | str s2 => simp [inRange] at hrange
    | missing => simp [inRange] at hrange

/-- C4: both range filters keep exactly the rows whose normalized
timestamp lies in the inclusive range `[start, end]`: an empty table or a
table without the `createdAt` column comes back unchanged from either
implementation; in `filter_df_by_range` and in
`filter_data_by_time_period` alike, a normalized instant `t` appears in
the result exactly when some input row normalizes to it (under that
implementation's normalizer) and `start ≤ t ≤ end`; and every result row
of either implementation is a normalized instant inside the range (rows
with a missing timestamp are excluded). -/
theorem C4_range_filter (df : DF) (s e : Int) :
    ((df.rows = [] ∨ df.hasCreatedAt = false) →
      filter_df_by_range df s e = (df, df) ∧
      filter_data_by_time_period df s e = (df, df)) ∧
    (df.hasCreatedAt = true →
      (∀ t : Int, Value.dt t ∈ (filter_df_by_range df s e).1.rows ↔
        ((∃ v ∈ df.rows, normalize_app v = some t) ∧ s ≤ t ∧ t ≤ e)) ∧
      (∀ t : Int, Value.dt t ∈ (filter_data_by_time_period df s e).1.rows ↔
        ((∃ v ∈ df.rows, normalize_enh df.numericCreatedAt v = some t) ∧
          s ≤ t ∧ t ≤ e)) ∧
      (∀ v ∈ (filter_df_by_range df s e).1.rows,
        ∃ t : Int, v = Value.dt t ∧ s ≤ t ∧ t ≤ e) ∧
      (∀ v ∈ (filter_data_by_time_period df s e).1.rows,
        ∃ t : Int, v = Value.dt t ∧ s ≤ t ∧ t ≤ e)) := by
  constructor
  · rintro (h | h)
    · have he : df.rows.isEmpty = true := by simp [h]
      constructor <;> simp [filter_df_by_range, filter_data_by_time_period, he]
    · constructor <;> simp [filter_df_by_range, filter_data_by_time_period, h]
  · intro hcol
    by_cases hrows : df.rows.isEmpty
    · have he : df.rows = [] := by simpa using hrows
      refine ⟨?_, ?_, ?_, ?_⟩
      · intro t
        simp [filter_df_by_range, hrows, he]
      · intro t
        simp [filter_data_by_time_period, hrows, he]
      · intro v hv
        simp [filter_df_by_range, hrows, he] at hv
      · intro v hv
        simp [filter_data_by_time_period, hrows, he] at hv
    · have hguard : (df.rows.isEmpty || !df.hasCreatedAt) = false := by
        simp [hrows, hcol]
      have hres1 : (filter_df_by_range df s e).1.rows
          = (df.rows.map (fun v => normCell (normalize_app v))).filter (inRange s e) := by
        simp [filter_df_by_range, hguard]
      have hres2 : (filter_data_by_time_period df s e).1.rows
          = (df.rows.map (fun v =>
              normCell (normalize_enh df.numericCreatedAt v))).filter (inRange s e) := by
        simp [filter_data_by_time_period, hguard]
      refine ⟨?_, ?_, ?_, ?_⟩
      · intro t
        rw [hres1]
        exact (filtered_norm_mem normalize_app df.rows s e).1 t
      · intro t
        rw [hres2]
        exact (filtered_norm_mem (normalize_enh df.numericCreatedAt) df.rows s e).1 t
      · intro v hv
        rw [hres1] at hv
        exact (filtered_norm_mem normalize_app df.rows s e).2 v hv
      · intro v hv
        rw [hres2] at hv
        exact (filtered_norm_mem (normalize_enh df.numericCreatedAt) df.rows s e).2 v hv

/-- C4 witness: with rows `[10, 9, 20, 21, missing]` and range `[10, 20]`,
the boundary row 10 is kept by `filter_df_by_range` and the boundary row
20 by `filter_data_by_time_period` (numeric column); and the filter is a
no-op on an empty table. -/
theorem C4_witness :
    Value.dt 10 ∈ (filter_df_by_range ⟨true, false,
        [Value.num 10, Value.num 9, Value.num 20, Value.num 21, Value.missing]⟩
        10 20).1.rows ∧
    Value.dt 20 ∈ (filter_data_by_time_period ⟨true, true,
        [Value.num 10, Value.num 9, Value.num 20, Value.num 21, Value.missing]⟩
        10 20).1.rows ∧
    filter_df_by_range ⟨true, false, []⟩ 0 1 = (⟨true, false, []⟩, ⟨true, false, []⟩) :=
  ⟨((C4_range_filter ⟨true, false,
        [Value.num 10, Value.num 9, Value.num 20, Value.num 21, Value.missing]⟩
        10 20).2 rfl).1 10 |>.mpr
      ⟨⟨Value.num 10, by decide, by decide⟩, by decide, by decide⟩,
    ((C4_range_filter ⟨true, true,
        [Value.num 10, Value.num 9, Value.num 20, Value.num 21, Value.missing]⟩
        10 20).2 rfl).2.1 20 |>.mpr
      ⟨⟨Value.num 20, by decide, by decide⟩, by decide, by decide⟩,
    ((C4_range_filter ⟨true, false, []⟩ 0 1).1 (Or.inl rfl)).1⟩

/-- C7 (counterexample): the heatmap is *not* a full 24×7 matrix for every
non-empty event set.  `pivot_table(index='hour_of_day')` only emits rows
for hours present in the data (only the day columns are reindexed to all
seven), so a single event at Monday 00:00 HKT yields a 1×7 matrix whose
hour rows are `[0]`, not 0..23. -/
theorem C7_counterexample :
    heatHours [1704038400] = [0] ∧
    heatHours [1704038400] ≠ List.range 24 ∧
    heatMatrix [1704038400] = [[1, 0, 0, 0, 0, 0, 0]] := by
  decide

/-- C7 (amended): the heatmap columns are exactly the seven day names in
Monday-first order; its rows are exactly the distinct local hours present
in the events, in strictly ascending order (not always 0..23); every
present hour carries a full 7-entry row in which day cells with no events
are 0 (never absent); and zmax bounds every cell and is attained by one
when the matrix is non-empty, with an empty event set giving an empty
matrix and zmax 0. -/
theorem C7_amended :
    day_order = ["Monday", "Tuesday", "Wednesday", "Thursday", "Friday",
      "Saturday", "Sunday"] ∧
    heatMatrix [] = [] ∧ heatZmax [] = 0 ∧
    ∀ evs : List Nat,
      (∀ h : Nat, h ∈ heatHours evs ↔ ∃ t ∈ evs, hourOf t = h) ∧
      List.Pairwise (fun a b => a < b) (heatHours evs) ∧
      (∀ row ∈ heatMatrix evs, row.length = 7) ∧
      (∀ h ∈ heatHours evs,
        (List.range 7).map (fun d => heatCell evs h d) ∈ heatMatrix evs) ∧
      (∀ row ∈ heatMatrix evs, ∀ x ∈ row, x ≤ heatZmax evs) ∧
      (evs ≠ [] → ∃ row ∈ heatMatrix evs, heatZmax evs ∈ row) := by
  refine ⟨rfl, rfl, rfl, ?_⟩
  intro evs
  refine ⟨?_, ?_, ?_, ?_, ?_, ?_⟩
  · intro h
    unfold heatHours
    rw [List.mem_filter]
    constructor
    · rintro ⟨_, hc⟩
      rcases List.mem_map.mp (List.elem_iff.mp hc) with ⟨t, ht, rfl⟩
      exact ⟨t, ht, rfl⟩
    · rintro ⟨t, ht, rfl⟩
      exact ⟨List.mem_range.mpr (hourOf_lt_24 t),
        List.elem_iff.mpr (List.mem_map.mpr ⟨t, ht, rfl⟩)⟩
  · exact (List.pairwise_lt_range 24).sublist (List.filter_sublist _)
  · intro row hrow
    rcases List.mem_map.mp hrow with ⟨h, _, rfl⟩
    simp
  · intro h hh
    exact List.mem_map.mpr ⟨h, hh, rfl⟩
  · intro row hrow x hx
    exact le_foldrMax _ _ (List.mem_flatten.mpr ⟨row, hrow, hx⟩)
  · intro hne
    rcases List.exists_mem_of_ne_nil evs hne with ⟨t, ht⟩
    have hh : hourOf t ∈ heatHours evs := by
      unfold heatHours
      exact List.mem_filter.mpr ⟨List.mem_range.mpr (hourOf_lt_24 t),
        List.elem_iff.mpr (List.mem_map.mpr ⟨t, ht, rfl⟩)⟩
    have hrow : (List.range 7).map (fun d => heatCell evs (hourOf t) d)
        ∈ heatMatrix evs := List.mem_map.mpr ⟨hourOf t, hh, rfl⟩
    have hcell : heatCell evs (hourOf t) (weekdayOf t)
        ∈ (List.range 7).map (fun d => heatCell evs (hourOf t) d) := by
      refine List.mem_map.mpr ⟨weekdayOf t, List.mem_range.mpr ?_, rfl⟩
      unfold weekdayOf weekdayIdx
      omega
    have hflat : heatZmax evs ∈ (heatMatrix evs).flatten := by
      refine foldrMax_mem _ ?_
      exact List.ne_nil_of_mem (List.mem_flatten.mpr ⟨_, hrow, hcell⟩)
    rcases List.mem_flatten.mp hflat with ⟨row, hrow2, hmem⟩
    exact ⟨row, hrow2, hmem⟩

/-- C7 witness: the sole present hour row of a one-event set, with its six
zero-filled day cells. -/
theorem C7_witness : [1, 0, 0, 0, 0, 0, 0] ∈ heatMatrix [1704038400] := by
  have h := ((C7_amended.2.2.2 [1704038400]).2.2.2.1) 0 (by decide)
  have e : (List.range 7).map (fun d => heatCell [1704038400] 0 d)
      = [1, 0, 0, 0, 0, 0, 0] := by decide
  exact e ▸ h

/-- The username left join only reads a row's `account` and only writes its
`username`, so the (account, generated-transcripts) projection of its
output depends only on those two fields of its input. -/
theorem leftJoinUser_map_pair (acc : List AccRow) (b1 b2 : SummaryRow)
    (ha : b1.account = b2.account)
    (hg : b1.generated_transcripts = b2.generated_transcripts) :
    (leftJoinUser acc b1).map (fun r2 => (r2.account, r2.generated_transcripts))
      = (leftJoinUser acc b2).map (fun r2 => (r2.account, r2.generated_transcripts)) := by
  unfold leftJoinUser
  rw [ha]
  cases hfil : acc.filter (fun m => m.account == b2.account) with
  | nil => simp [ha, hg]
  | cons m ms => simp [List.map_map, Function.comp, ha, hg]

/-- C9: every summary row's generated-transcripts count is the number of
rows of the (filtered) transcription table bearing that row's account:
it equals the per-account row count of the transcription table, each
transcription row added for the account raises it by exactly one
(unconditionally — no other field exists to be consulted), and replacing
the usage and AskAI tables by any others leaves every row's
(account, generated-transcripts) pair unchanged. -/
theorem C9_generated_transcripts (hu : Bool) (acc : List AccRow)
    (u : List UEvent) (t k : List String) (r : SummaryRow)
    (hr : r ∈ build_summary_df hu acc u t k) :
    r.generated_transcripts = (t.filter (fun x => x == r.account)).length ∧
    (∀ x : String, ((x :: t).filter (fun y => y == r.account)).length
        = (t.filter (fun y => y == r.account)).length
          + (if x = r.account then 1 else 0)) ∧
    (∀ (u2 : List UEvent) (k2 : List String),
      (build_summary_df hu acc u2 t k2).map
          (fun r2 => (r2.account, r2.generated_transcripts))
        = (build_summary_df hu acc u t k).map
          (fun r2 => (r2.account, r2.generated_transcripts))) := by
  refine ⟨(mem_build hu acc u t k r hr).2.1, ?_, ?_⟩
  · intro x
    by_cases hx : x = r.account
    · simp [List.filter_cons, hx]
    · simp [List.filter_cons, hx]
  · intro u2 k2
    unfold build_summary_df
    by_cases hacc : acc.isEmpty
    · rw [if_pos hacc, if_pos hacc]
    · rw [if_neg hacc, if_neg hacc]
      cases hu
      · simp only [Bool.false_eq_true, if_false, List.map_map]
        rfl
      · simp only [if_true]
        generalize dropDups (acc.map AccRow.account) = l
        induction l with
        | nil => rfl
        | cons a rest ih =>
            simp only [List.map_cons, List.flatMap_cons, List.map_append, ih]
            congr 1
            exact leftJoinUser_map_pair acc _ _ rfl rfl

/-- C9 witness. -/
theorem C9_witness :
    (countsRow "a" [] ["a", "b", "a"] []).generated_transcripts = 2 := by
  have h := (C9_generated_transcripts false [⟨"a", none⟩] []
      ["a", "b", "a"] [] (countsRow "a" [] ["a", "b", "a"] []) (by decide)).1
  rw [h]
  decide

/-- On an account table with pairwise-distinct accounts, filtering by one
of its accounts yields exactly one row. -/
theorem filter_account_single (acc : List AccRow) (a : String)
    (hnd : (acc.map AccRow.account).Nodup) (ha : a ∈ acc.map AccRow.account) :
    ∃ m : AccRow, acc.filter (fun m2 => m2.account == a) = [m] ∧ m.account = a := by
  induction acc with
  | nil => cases ha
  | cons x rest ih =>
      rw [List.map_cons, List.nodup_cons] at hnd
      rcases List.mem_cons.mp ha with h | h
      · refine ⟨x, ?_, h.symm⟩
        have hrest : rest.filter (fun m2 => m2.account == a) = [] := by
          refine List.filter_eq_nil_iff.mpr ?_
          intro m hm hbeq
          have hma : m.account = a := by simpa using hbeq
          exact hnd.1 (h ▸ hma ▸ List.mem_map.mpr ⟨m, hm, rfl⟩)
        have hcond : (x.account == a) = true := by simp [h]
        rw [List.filter_cons, if_pos hcond, hrest]
      · have hxa : ¬(x.account == a) = true := by
          intro hbeq
          have hxa2 : x.account = a := by simpa using hbeq
          exact hnd.1 (hxa2 ▸ h)
        rcases ih hnd.2 h with ⟨m, hm, hma⟩
        exact ⟨m, by simp [List.filter_cons, hxa, hm], hma⟩

/-- On an account table with pairwise-distinct accounts, the username left
join keeps exactly one output row per base row, with the base row's
account. -/
theorem flatMap_account (acc : List AccRow) (u : List UEvent) (t k : List String)
    (hnd : (acc.map AccRow.account).Nodup) :
    ∀ l : List String, (∀ a ∈ l, a ∈ acc.map AccRow.account) →
      ((l.map (fun a => countsRow a u t k)).flatMap (leftJoinUser acc)).map
        SummaryRow.account = l := by
  intro l
  induction l with
  | nil => intro _; rfl
  | cons a rest ih =>
      intro hsub
      rcases filter_account_single acc a hnd
          (hsub a (List.mem_cons_self a rest)) with ⟨m, hm, _⟩
      have hhead : (leftJoinUser acc (countsRow a u t k)).map SummaryRow.account
          = [a] := by
        unfold leftJoinUser
        rw [show (countsRow a u t k).account = a from rfl, hm]
        rfl
      simp only [List.map_cons, List.flatMap_cons, List.map_append, hhead,
        ih (fun b hb => hsub b (List.mem_cons_of_mem a hb))]
      rfl

/-- C3 (counterexample): the summary matrix does *not* always contain
exactly one row per distinct roster account.  With a duplicate roster
entry and a `username` column present, the final username left merge
re-duplicates the deduplicated row: a roster with the account `"a"` twice
yields two summary rows although there is one distinct account. -/
theorem C3_counterexample :
    (build_summary_df true [⟨"a", some "u1"⟩, ⟨"a", some "u2"⟩] [] [] []).length
        = 2 ∧
    dropDups ([⟨"a", some "u1"⟩, ⟨"a", some "u2"⟩].map AccRow.account) = ["a"] := by
  decide

/-- C3 (amended): for every non-empty roster whose accounts are pairwise
distinct (or for any roster when the account table has no `username`
column, where duplicates are deduplicated), the summary matrix has
exactly one row per distinct roster account, in roster order and with no
roster row dropped; and every count in a row is a natural number that is
0 whenever the corresponding table has no row for that account — in
particular all counts are 0 when the usage, transcription and AskAI
tables are all empty.  Only a duplicated roster account combined with a
present `username` column (the counterexample) breaks the one-row
guarantee. -/
theorem C3_amended :
    (∀ (hu : Bool) (acc : List AccRow) (u : List UEvent) (t k : List String),
      acc ≠ [] → (acc.map AccRow.account).Nodup →
      (build_summary_df hu acc u t k).map SummaryRow.account
        = acc.map AccRow.account) ∧
    (∀ (acc : List AccRow) (u : List UEvent) (t k : List String),
      acc ≠ [] →
      (build_summary_df false acc u t k).map SummaryRow.account
        = dropDups (acc.map AccRow.account)) ∧
    (∀ (hu : Bool) (acc : List AccRow) (u : List UEvent) (t k : List String)
      (r : SummaryRow), r ∈ build_summary_df hu acc u t k →
      ((∀ x ∈ t, x ≠ r.account) → r.generated_transcripts = 0) ∧
      ((∀ x ∈ k, x ≠ r.account) → r.askai_questions = 0) ∧
      ((∀ ev ∈ u, ev.account ≠ r.account) →
        r.regenerated_transcripts = 0 ∧ r.initial_summaries = 0 ∧
        r.regenerated_summaries = 0 ∧ r.generated_notes = 0 ∧
        r.regenerated_notes = 0)) := by
  have hbase : ∀ (acc : List AccRow) (u : List UEvent) (t k : List String),
      acc ≠ [] →
      (build_summary_df false acc u t k).map SummaryRow.account
        = dropDups (acc.map AccRow.account) := by
    intro acc u t k hacc
    have hne : ¬acc.isEmpty = true := by
      simpa [List.isEmpty_iff] using hacc
    unfold build_summary_df
    rw [if_neg hne]
    simp only [Bool.false_eq_true, if_false, List.map_map]
    rw [show (SummaryRow.account ∘ fun a => countsRow a u t k) = id from rfl,
      List.map_id]
  refine ⟨?_, hbase, ?_⟩
  · intro hu acc u t k hacc hnd
    have hdd : dropDups (acc.map AccRow.account) = acc.map AccRow.account :=
      dropDups_eq_self _ hnd
    cases hu
    · rw [hbase acc u t k hacc, hdd]
    · have hne : ¬acc.isEmpty = true := by
        simpa [List.isEmpty_iff] using hacc
      unfold build_summary_df
      rw [if_neg hne]
      simp only [if_true]
      rw [hdd]
      exact flatMap_account acc u t k hnd (acc.map AccRow.account) (fun a ha => ha)
  · intro hu acc u t k r hr
    obtain ⟨_, hg, hrt, his, hrs, hgn, hrn, hask⟩ := mem_build hu acc u t k r hr
    refine ⟨?_, ?_, ?_⟩
    · intro hnone
      rw [hg]
      exact length_filter_eq_zero _ _ (fun x hx => by simp [hnone x hx])
    · intro hnone
      rw [hask]
      exact length_filter_eq_zero _ _ (fun x hx => by simp [hnone x hx])
    · intro hnone
      rw [hrt, his, hrs, hgn, hrn]
      refine ⟨?_, ?_, ?_, ?_, ?_⟩ <;>
        exact length_filter_eq_zero _ _ (fun ev hev => by simp [hnone ev hev])

/-- C3 witness. -/
theorem C3_witness :
    (build_summary_df true [⟨"a", none⟩] [] [] []).map SummaryRow.account
      = ["a"] := by
  have h := C3_amended.1 true [⟨"a", none⟩] [] [] []
      (by decide) (by decide)
  simpa using h

end Kaishing
